import Mathlib

/-!
Verification development for the multi-currency valuation core of the
DirectInvestTracker backend (FastAPI + SQLite).  The embedding is shallow:
dates are day numbers (l), prices and rates are exact rationals (m),
Python dicts keyed by strings become association lists, and the pandas
price frames become lists of (date, close) pairs.  Each definition mirrors
one function (or an inner loop) of the source; the line references point
into the backend sources.
-/

namespace DirectInvestTracker

/-- Category enum from app/models.py. -/
inductive Category where
  | Equity
  | GIC
  | Cash
  | Dividend
deriving DecidableEq

/-- Position row (app/models.py); the surrogate integer id is omitted. -/
structure Position where
  account_id : Nat
  symbol : String
  category : Category
  quantity : Rat
  cost_per_share : Rat
  date_added : Nat
  yield_rate : Option Rat
  currency : String
deriving DecidableEq

/-- Account row (app/models.py). -/
structure Account where
  id : Nat
  name : String
  base_currency : String
deriving DecidableEq

/-- ASCII upper-casing of one character. -/
def asciiUpperChar (c : Char) : Char :=
  if c.isLower then Char.ofNat (c.toNat - 32) else c

/-- Python `str.upper()` as used on ISO currency codes.  (The library
`String.toUpper` is extensionally the same on ASCII input but is not
kernel-reducible, so the map is spelled out.) -/
def asciiUpper (s : String) : String := ⟨s.data.map asciiUpperChar⟩

/-- Python dict lookup on an association list keyed by strings. -/
def findRate (m : List (String × Rat)) (k : String) : Option Rat :=
  (m.find? (fun p => p.1 == k)).map (fun p => p.2)

/-- Currency-pair key "FROM/TO". -/
def pairStr (f t : String) : String := f ++ "/" ++ t

/-- Models the recurring Python pattern `rate is not None and rate > 0`. -/
def posRate : Option Rat → Option Rat
  | some r => if 0 < r then some r else none
  | none => none

/-- `_lookup_fx` of routers/history.py lines 36-44 (routers/summary.py lines
46-56 is the same logic): same currency gives 1, else the direct pair, else
the reciprocal of a nonzero inverse pair, else the 1.0 fallback. -/
def lookup_fx (fx : List (String × Rat)) (f t : String) : Rat :=
  if f = t then 1
  else
    match findRate fx (pairStr f t) with
    | some r => r
    | none =>
      match findRate fx (pairStr t f) with
      | some r => if r ≠ 0 then 1 / r else 1
      | none => 1

/-- `hist_fx[key].get(dt)` used by `_fx_on_date` (routers/history.py). -/
def histRate (hist : List (String × List (Nat × Rat))) (k : String) (dt : Nat) : Option Rat :=
  match (hist.find? (fun p => p.1 == k)).map (fun p => p.2) with
  | some series => (series.find? (fun p => p.1 == dt)).map (fun p => p.2)
  | none => none

/-- `_fx_on_date` inside `_compute_equity_aggregate` (routers/history.py
lines 100-112): exact historical rate for the date, else reciprocal of the
historical inverse-pair rate, else the latest-snapshot resolver. -/
def fx_on_date (hist : List (String × List (Nat × Rat))) (latest : List (String × Rat))
    (f t : String) (dt : Nat) : Rat :=
  if f = t then 1
  else
    match posRate (histRate hist (pairStr f t) dt) with
    | some r => r
    | none =>
      match posRate (histRate hist (pairStr t f) dt) with
      | some r => 1 / r
      | none => lookup_fx latest f t

/-- `sorted(set().union(*indexes))` (routers/history.py line 127). -/
def unionDates (idxs : List (List Nat)) : List Nat :=
  List.insertionSort (fun a b => a ≤ b) ((idxs.foldr (fun s acc => s ++ acc) []).dedup)

/-- Forward-fill value of a date-ascending series at date d: the last
observation at or before d (pandas `reindex(axis).ffill()` where the axis
contains every date of the series). -/
def ffillAt (s : List (Nat × Rat)) (d : Nat) : Option Rat :=
  ((s.filter (fun p => p.1 ≤ d)).getLast?).map (fun p => p.2)

/-- `df.reindex(all_dates).ffill().dropna(subset=["Close"])`
(routers/history.py line 139). -/
def alignSeries (s : List (Nat × Rat)) (axis : List Nat) : List (Nat × Rat) :=
  axis.filterMap (fun d => (ffillAt s d).map (fun v => (d, v)))

/-- One per-date accumulator cell of `combined` (routers/history.py line 129). -/
structure Entry where
  pnl : Rat
  mtm : Rat
  cash_gic : Rat
deriving DecidableEq

/-- `defaultdict(lambda: dict(pnl=0, mtm=0, cash_gic=0))` as a total map. -/
def zeroCombined : Nat → Entry := fun _ => ⟨0, 0, 0⟩

/-- `sum(p.quantity for p in sym_positions)`. -/
def totalQty (ps : List Position) : Rat := (ps.map (fun p => p.quantity)).sum

/-- `sum(p.quantity * p.cost_per_share for p in sym_positions)`. -/
def weightedCost (ps : List Position) : Rat :=
  (ps.map (fun p => p.quantity * p.cost_per_share)).sum

/-- The volume-weighted average cost of routers/history.py lines 131-133 and
299-301.  Python divides floats with no guard, so a group whose quantities
sum to zero raises ZeroDivisionError; the raise is modelled as `none`. -/
def symAvgCost (ps : List Position) : Option Rat :=
  if totalQty ps = 0 then none else some (weightedCost ps / totalQty ps)

/-- `accounts.get(account_id)` over the account table. -/
def findAccount (accts : List Account) (i : Nat) : Option Account :=
  accts.find? (fun a => a.id == i)

/-- `acct.base_currency.upper() if acct else reporting_currency`
(the reporting currency is already upper-cased by the callers). -/
def acctCcy (accts : List Account) (rep : String) (p : Position) : String :=
  match findAccount accts p.account_id with
  | some a => asciiUpper a.base_currency
  | none => rep

/-- `sym_positions[0].currency.upper()`. -/
def stockCcy (ps : List Position) : String :=
  (ps.head?.map (fun p => asciiUpper p.currency)).getD ""

/-- Account currency of a symbol group, from its first position. -/
def groupAcctCcy (accts : List Account) (rep : String) (ps : List Position) : String :=
  match ps.head? with
  | some p => acctCcy accts rep p
  | none => rep

/-- One symbol group of `_compute_equity_aggregate`: the symbol, its fetched
price series, and its positions. -/
structure SymGroup where
  symbol : String
  df : List (Nat × Rat)
  positions : List Position
deriving DecidableEq

/-- One iteration of the per-date loop of routers/history.py lines 141-145:
`combined[dt]["mtm"] += close * total_qty * fx` and
`combined[dt]["pnl"] += (close - avg_cost) * total_qty * fx`. -/
def applyEquityRow (hist : List (String × List (Nat × Rat))) (latest : List (String × Rat))
    (sCcy aCcy rep : String) (tq avg : Rat)
    (c : Nat → Entry) (row : Nat × Rat) : Nat → Entry :=
  fun d =>
    if d = row.1 then
      let fx := fx_on_date hist latest sCcy aCcy row.1 * fx_on_date hist latest aCcy rep row.1
      { pnl := (c d).pnl + (row.2 - avg) * tq * fx
        mtm := (c d).mtm + row.2 * tq * fx
        cash_gic := (c d).cash_gic }
    else c d

/-- The per-symbol slice of the loop at routers/history.py lines 131-145,
including the unguarded average-cost division (modelled as `none` on a
zero-quantity group). -/
def addEquitySymbol (accts : List Account) (hist : List (String × List (Nat × Rat)))
    (latest : List (String × Rat)) (rep : String) (axis : List Nat)
    (c : Nat → Entry) (g : SymGroup) : Option (Nat → Entry) :=
  match symAvgCost g.positions with
  | none => none
  | some avg =>
    some ((alignSeries g.df axis).foldl
      (applyEquityRow hist latest (stockCcy g.positions) (groupAcctCcy accts rep g.positions)
        rep (totalQty g.positions) avg) c)

/-- `_compute_equity_aggregate` (routers/history.py lines 64-147) from the
point where the per-symbol frames are known: groups whose price series is
empty are dropped (not an error), the common date axis is the sorted union
of the remaining series' dates, and every symbol then adds its per-date
contributions into the shared accumulator. -/
def computeEquityAggregate (accts : List Account) (hist : List (String × List (Nat × Rat)))
    (latest : List (String × Rat)) (rep : String) (groups : List SymGroup) :
    Option ((Nat → Entry) × List Nat) :=
  let gs := groups.filter (fun g => !g.df.isEmpty)
  if gs.isEmpty then some (zeroCombined, [])
  else
    let axis := unionDates (gs.map (fun g => g.df.map Prod.fst))
    (gs.foldlM (fun c g => addEquitySymbol accts hist latest rep axis c g) zeroCombined).map
      (fun c => (c, axis))

/-- Per-position per-date Cash/GIC (mtm, pnl) values of routers/history.py
lines 206-213.  As in the source, the else branch is the GIC branch (the
caller only passes Cash and GIC positions). -/
def cashGicValues (pos : Position) (dt : Nat) : Rat × Rat :=
  if pos.category = Category.Cash then
    (pos.quantity * pos.cost_per_share, 0)
  else
    let days : Rat := ((dt - pos.date_added : Nat) : Rat)
    let spot := pos.cost_per_share * (1 + (pos.yield_rate.getD 0) * days / 365)
    (spot * pos.quantity, (spot - pos.cost_per_share) * pos.quantity)

/-- The Cash/GIC contribution loop of `get_aggregate_history`
(routers/history.py lines 196-218): dates before the position's open date
are skipped, the others get the position values converted through the
latest-snapshot two-hop FX chain. -/
def addNonEquityPos (latest : List (String × Rat)) (accts : List Account) (rep : String)
    (axis : List Nat) (c : Nat → Entry) (pos : Position) : Nat → Entry :=
  axis.foldl
    (fun c dt =>
      if dt < pos.date_added then c
      else
        let mv := cashGicValues pos dt
        let fx := lookup_fx latest (asciiUpper pos.currency) (acctCcy accts rep pos) *
          lookup_fx latest (acctCcy accts rep pos) rep
        fun d =>
          if d = dt then
            { pnl := (c d).pnl + mv.2 * fx
              mtm := (c d).mtm + mv.1 * fx
              cash_gic := (c d).cash_gic + mv.1 * fx }
          else c d)
    c

/-- Enriched position record of the summary endpoint (app/schemas.py);
identity fields irrelevant to the valuation formulas are omitted. -/
structure EnrichedPosition where
  symbol : String
  category : Category
  quantity : Rat
  cost_per_share : Rat
  stock_currency : String
  account_currency : String
  spot_price : Rat
  fx_stock_to_account : Rat
  fx_account_to_reporting : Rat
  mtm_account : Rat
  pnl_account : Rat
  mtm_reporting : Rat
  pnl_reporting : Rat
  proportion : Rat
deriving DecidableEq

/-- Spot price rule of routers/summary.py lines 73-77: GIC/Cash/Dividend are
marked at cost, Equity takes the latest market price (falling back to cost
when no market row exists). -/
def spotOf (prices : List (String × Rat)) (p : Position) : Rat :=
  if p.category = Category.GIC ∨ p.category = Category.Cash ∨ p.category = Category.Dividend then
    p.cost_per_share
  else
    (findRate prices p.symbol).getD p.cost_per_share

/-- One iteration of `_enrich_positions` (routers/summary.py lines 68-108). -/
def enrichOne (prices fxm : List (String × Rat)) (rep : String) (acct : Account)
    (p : Position) : EnrichedPosition :=
  let repC := asciiUpper rep
  let aC := asciiUpper acct.base_currency
  let sC := asciiUpper p.currency
  let spot := spotOf prices p
  let fx1 := lookup_fx fxm sC aC
  let fx2 := lookup_fx fxm aC repC
  let mtmA := spot * p.quantity * fx1
  let pnlA := (spot - p.cost_per_share) * p.quantity * fx1
  { symbol := p.symbol
    category := p.category
    quantity := p.quantity
    cost_per_share := p.cost_per_share
    stock_currency := sC
    account_currency := aC
    spot_price := spot
    fx_stock_to_account := fx1
    fx_account_to_reporting := fx2
    mtm_account := mtmA
    pnl_account := pnlA
    mtm_reporting := mtmA * fx2
    pnl_reporting := pnlA * fx2
    proportion := 0 }

/-- `sum(e.mtm_reporting for e in enriched)` (routers/summary.py line 126). -/
def totalMtmRaw (l : List EnrichedPosition) : Rat :=
  (l.map (fun e => e.mtm_reporting)).sum

/-- `total_mtm = sum(...) or 1.0` (routers/summary.py line 126): Python float
truthiness replaces a zero sum by the sentinel 1.0. -/
def summaryTotalMtm (l : List EnrichedPosition) : Rat :=
  if totalMtmRaw l = 0 then 1 else totalMtmRaw l

/-- The second-pass proportion assignment of routers/summary.py lines
130-131. -/
def assignProportions (l : List EnrichedPosition) : List EnrichedPosition :=
  l.map (fun e =>
    { e with proportion :=
        if summaryTotalMtm l ≠ 0 then e.mtm_reporting / summaryTotalMtm l * 100 else 0 })

/-- The assigned proportions, in position order. -/
def propsOf (l : List EnrichedPosition) : List Rat :=
  (assignProportions l).map (fun e => e.proportion)

/-- Direct-or-inverse resolution of `lookup` in `get_fx_matrix`
(routers/fx_rates.py lines 69-76): same currency, positive direct pair, or
reciprocal of a positive inverse pair. -/
def lookupDI (rm : List (String × Rat)) (f t : String) : Option Rat :=
  if f = t then some 1
  else
    match posRate (findRate rm (pairStr f t)) with
    | some r => some r
    | none =>
      match posRate (findRate rm (pairStr t f)) with
      | some r => some (1 / r)
      | none => none

/-- `lookup` in `get_fx_matrix` (routers/fx_rates.py lines 69-84).  The two
recursive calls both have one endpoint equal to the anchor currency, which
disables their own triangulation branch, so they are expanded to
`lookupDI`; `matrixLookup_leg_right` and `matrixLookup_leg_left` below
prove the expansion faithful. -/
def matrixLookup (rm : List (String × Rat)) (via f t : String) : Option Rat :=
  if f = t then some 1
  else
    match posRate (findRate rm (pairStr f t)) with
    | some r => some r
    | none =>
      match posRate (findRate rm (pairStr t f)) with
      | some r => some (1 / r)
      | none =>
        if f ≠ via ∧ t ≠ via then
          match lookupDI rm f via, lookupDI rm via t with
          | some a, some b => some (a * b)
          | _, _ => none
        else none

/-- One row of the price_cache table (services/history_cache.py). -/
structure CacheRow where
  cache_key : String
  trade_date : Nat
  close : Rat
deriving DecidableEq

/-- `INSERT OR REPLACE` on `PRIMARY KEY (cache_key, trade_date)`: the
conflicting row, if any, is deleted and the new row inserted. -/
def upsertRow (st : List CacheRow) (r : CacheRow) : List CacheRow :=
  (st.filter (fun q => !(q.cache_key == r.cache_key && q.trade_date == r.trade_date))) ++ [r]

/-- The row loop of `write_cache` (services/history_cache.py lines 100-114). -/
def writeCacheRows (st : List CacheRow) (key : String) (df : List (Nat × Rat)) : List CacheRow :=
  df.foldl (fun s p => upsertRow s ⟨key, p.1, p.2⟩) st

/-- Stored rows for one (cache_key, trade_date) pair. -/
def rowsFor (st : List CacheRow) (key : String) (d : Nat) : List CacheRow :=
  st.filter (fun q => q.cache_key == key && q.trade_date == d)

/-- `SELECT trade_date, close FROM price_cache WHERE cache_key = ? AND
trade_date >= ? ORDER BY trade_date` (services/history_cache.py lines
74-78). -/
def readCacheRows (st : List CacheRow) (key : String) (start : Nat) : List (Nat × Rat) :=
  List.insertionSort (fun a b => a.1 ≤ b.1)
    ((st.filter (fun r => r.cache_key == key && start ≤ r.trade_date)).map
      (fun r => (r.trade_date, r.close)))

/-- The unique-constraint invariant: no two stored rows share a
(cache_key, trade_date) pair. -/
def pairwiseDistinctKeys (st : List CacheRow) : Prop :=
  st.Pairwise (fun a b => ¬(a.cache_key = b.cache_key ∧ a.trade_date = b.trade_date))

/-- Cache backend state.  The two flags model the sqlite layer raising (and
the wrappers swallowing) an exception during a read or a write, as in the
try/except blocks of services/history_cache.py. -/
structure CacheEnv where
  store : List CacheRow
  readOk : Bool
  writeOk : Bool
deriving DecidableEq

/-- `read_cache` (services/history_cache.py lines 65-87): any backend
failure is caught and an empty frame returned. -/
def read_cache (env : CacheEnv) (key : String) (start : Nat) : List (Nat × Rat) :=
  if env.readOk then readCacheRows env.store key start else []

/-- `write_cache` (services/history_cache.py lines 90-117): empty frames are
ignored, and a failing write leaves the store unchanged (the exception is
swallowed). -/
def write_cache (env : CacheEnv) (key : String) (df : List (Nat × Rat)) : CacheEnv :=
  if df.isEmpty then env
  else if env.writeOk then { env with store := writeCacheRows env.store key df } else env

/-- The observable outcome of `_fetch_or_cache`: the returned series, the
cache state afterwards, and whether the external source was called. -/
structure FetchOutcome where
  series : List (Nat × Rat)
  env : CacheEnv
  called_source : Bool
deriving DecidableEq

/-- `_fetch_or_cache` (routers/history.py lines 47-61); `fetchHistory`
stands for the external Yahoo Finance price source. -/
def fetch_or_cache (fetchHistory : String → Nat → List (Nat × Rat)) (env : CacheEnv)
    (key : String) (start : Nat) (useCache : Bool) : FetchOutcome :=
  if useCache then ⟨read_cache env key start, env, false⟩
  else
    let df := fetchHistory key start
    ⟨df, if df.isEmpty then env else write_cache env key df, true⟩

/- Concrete inputs used by witnesses and counterexamples. -/

def demoHistFx : List (String × List (Nat × Rat)) := [("USD/CAD", [(5, 2)])]

def demoAcctUSD : Account := ⟨1, "Brokerage", "USD"⟩

def demoEquityPos : Position := ⟨1, "AAPL", Category.Equity, 10, 100, 0, none, "USD"⟩

def demoPrices : List (String × Rat) := [("AAPL", 150)]

def demoFxUsdCad : List (String × Rat) := [("USD/CAD", 27/20)]

def demoGicPos : Position := ⟨1, "MyGIC", Category.GIC, 1, 100, 0, some (1/20), "CAD"⟩

def demoPosQtyOne : Position := ⟨1, "XYZ", Category.Equity, 1, 5, 0, none, "CAD"⟩

def demoPosQtyNegOne : Position := ⟨1, "XYZ", Category.Equity, -1, 7, 0, none, "CAD"⟩

def demoGroupOK : SymGroup := ⟨"XYZ", [(1, 10)], [demoPosQtyOne]⟩

def demoGroupZeroQty : SymGroup := ⟨"XYZ", [(1, 10)], [demoPosQtyOne, demoPosQtyNegOne]⟩

def cexRateMap : List (String × Rat) := [("EUR/CAD", 7), ("EUR/USD", 2), ("USD/CAD", 3)]

def triRateMap : List (String × Rat) := [("EUR/USD", 2), ("USD/CAD", 3)]

def cexMtmPlus : EnrichedPosition :=
  { symbol := "A"
    category := Category.Equity
    quantity := 1
    cost_per_share := 0
    stock_currency := "CAD"
    account_currency := "CAD"
    spot_price := 100
    fx_stock_to_account := 1
    fx_account_to_reporting := 1
    mtm_account := 100
    pnl_account := 100
    mtm_reporting := 100
    pnl_reporting := 100
    proportion := 0 }

def cexMtmMinus : EnrichedPosition :=
  { cexMtmPlus with
    symbol := "B"
    spot_price := -100
    mtm_account := -100
    pnl_account := -100
    mtm_reporting := -100
    pnl_reporting := -100 }

/- ## Helper lemmas -/

/-- A getLast? hit is a member of the list. -/
theorem mem_of_getLast_option {α : Type} {l : List α} {a : α} (h : l.getLast? = some a) :
    a ∈ l := by
  cases l with
  | nil => simp at h
  | cons b t =>
    rw [List.getLast?_eq_getLast _ (by simp)] at h
    obtain rfl : (b :: t).getLast (by simp) = a := Option.some.inj h
    exact List.getLast_mem _

/-- Folding date-keyed pointwise updates over dates other than d leaves the
accumulator unchanged at d. -/
theorem foldl_pointwise_ne {α : Type} (step : (Nat → Entry) → α → (Nat → Entry)) (key : α → Nat)
    (hstep : ∀ c x d, d ≠ key x → step c x d = c d)
    (l : List α) (c : Nat → Entry) (d : Nat) (hd : ∀ x ∈ l, d ≠ key x) :
    l.foldl step c d = c d := by
  induction l generalizing c with
  | nil => rfl
  | cons a l ih =>
    rw [List.foldl_cons, ih (step c a) (fun x hx => hd x (List.mem_cons_of_mem a hx))]
    exact hstep c a d (hd a (List.mem_cons_self a l))

/-- If d's unique carrier x sits between l₁ and l₂, the fold's value at
`key x` is the single update applied to the value accumulated over l₁. -/
theorem foldl_pointwise_split {α : Type} (step : (Nat → Entry) → α → (Nat → Entry)) (key : α → Nat)
    (hstep : ∀ c x d, d ≠ key x → step c x d = c d)
    (l₁ l₂ : List α) (x : α) (c : Nat → Entry)
    (h2 : ∀ y ∈ l₂, key x ≠ key y) :
    ((l₁ ++ x :: l₂).foldl step c) (key x) = step (l₁.foldl step c) x (key x) := by
  rw [List.foldl_append, List.foldl_cons]
  exact foldl_pointwise_ne step key hstep l₂ _ (key x) h2

/-- The dates of an aligned series form a sublist of the axis. -/
theorem alignSeries_fst_sublist (s : List (Nat × Rat)) (axis : List Nat) :
    ((alignSeries s axis).map Prod.fst).Sublist axis := by
  induction axis with
  | nil => simp [alignSeries]
  | cons a l ih =>
    cases h : ffillAt s a with
    | none =>
      simp only [alignSeries, List.filterMap_cons, h, Option.map_none']
      exact ih.cons a
    | some v =>
      simp only [alignSeries, List.filterMap_cons, h, Option.map_some', List.map_cons]
      exact ih.cons₂ a

/-- Membership in an aligned series decodes to axis membership plus the
forward-fill equation. -/
theorem alignSeries_mem_elim (s : List (Nat × Rat)) (axis : List Nat) {d : Nat} {v : Rat}
    (h : (d, v) ∈ alignSeries s axis) : d ∈ axis ∧ ffillAt s d = some v := by
  obtain ⟨a, ha, hfa⟩ := List.mem_filterMap.mp h
  cases hf : ffillAt s a with
  | none => rw [hf] at hfa; simp at hfa
  | some w =>
    rw [hf] at hfa
    simp only [Option.map_some', Option.some.injEq, Prod.mk.injEq] at hfa
    obtain ⟨rfl, rfl⟩ := hfa
    exact ⟨ha, hf⟩

/-- A forward-filled value certifies an observation at or before d. -/
theorem ffillAt_exists_obs (s : List (Nat × Rat)) (d : Nat) {v : Rat}
    (h : ffillAt s d = some v) : ∃ q ∈ s, q.1 ≤ d := by
  unfold ffillAt at h
  cases hg : (s.filter (fun p => p.1 ≤ d)).getLast? with
  | none => rw [hg] at h; simp at h
  | some q =>
    have hq := mem_of_getLast_option hg
    rw [List.mem_filter] at hq
    exact ⟨q, hq.1, by simpa using hq.2⟩

/-- Dates of a member series land in the union axis. -/
theorem mem_unionDates {idxs : List (List Nat)} {ds : List Nat} (hm : ds ∈ idxs) {d : Nat}
    (hd : d ∈ ds) : d ∈ unionDates idxs := by
  have hj : d ∈ idxs.foldr (fun s acc => s ++ acc) [] := by
    induction idxs with
    | nil => cases hm
    | cons a l ih =>
      rcases List.mem_cons.mp hm with rfl | hm'
      · exact List.mem_append.mpr (Or.inl hd)
      · exact List.mem_append.mpr (Or.inr (ih hm'))
  unfold unionDates
  rw [(List.perm_insertionSort _ _).mem_iff]
  exact List.mem_dedup.mpr hj

/-- The union axis has no duplicate dates. -/
theorem unionDates_nodup (idxs : List (List Nat)) : (unionDates idxs).Nodup := by
  unfold unionDates
  exact ((List.perm_insertionSort _ _).nodup_iff).mpr (List.nodup_dedup _)

/- ## Claim theorems -/

/-- Claim C3: in historical aggregation, the FX rate used for a leg and
date falls back in order: the exact historical rate recorded for that date
for the pair; else the reciprocal of the historical inverse-pair rate for
that date; else the latest-snapshot resolver (which yields 1 for a same
currency leg); and the lookup is total — when every source is silent it
degrades to 1 instead of failing, so the aggregation never aborts on an FX
gap. -/
theorem fx_on_date_fallback_order (hist : List (String × List (Nat × Rat)))
    (latest : List (String × Rat)) (f t : String) (dt : Nat) :
    (f = t → fx_on_date hist latest f t dt = 1) ∧
    (f ≠ t → ∀ r, posRate (histRate hist (pairStr f t) dt) = some r →
      fx_on_date hist latest f t dt = r) ∧
    (f ≠ t → posRate (histRate hist (pairStr f t) dt) = none →
      ∀ r, posRate (histRate hist (pairStr t f) dt) = some r →
      fx_on_date hist latest f t dt = 1 / r) ∧
    (f ≠ t → posRate (histRate hist (pairStr f t) dt) = none →
      posRate (histRate hist (pairStr t f) dt) = none →
      fx_on_date hist latest f t dt = lookup_fx latest f t) ∧
    (posRate (histRate hist (pairStr f t) dt) = none →
      posRate (histRate hist (pairStr t f) dt) = none →
      findRate latest (pairStr f t) = none → findRate latest (pairStr t f) = none →
      fx_on_date hist latest f t dt = 1) := by
  refine ⟨fun h => by simp [fx_on_date, h], ?_, ?_, ?_, ?_⟩
  · intro h r hr
    simp [fx_on_date, h, hr]
  · intro h h1 r hr
    simp [fx_on_date, h, h1, hr]
  · intro h h1 h2
    simp [fx_on_date, h, h1, h2]
  · intro h1 h2 h3 h4
    by_cases h : f = t
    · simp [fx_on_date, h]
    · simp [fx_on_date, lookup_fx, h, h1, h2, h3, h4]

/-- Witness for C3 at concrete inputs: the historical USD/CAD rate recorded
for day 5 is used directly. -/
theorem fx_on_date_fallback_order_witness :
    fx_on_date demoHistFx [] "USD" "CAD" 5 = 2 :=
  (fx_on_date_fallback_order demoHistFx [] "USD" "CAD" 5).2.1 (by decide) 2 (by decide)

/-- Claim C4: for a collection of per-symbol series with (strictly)
date-sorted observations, the aligned axis is the union of all observed
dates, so its length bounds every individual series length; an aligned
value is always the series' own forward-filled last observation, never
attached to a date before the series' first observation; and a series with
zero observations contributes nothing to the union. -/
theorem alignment_union_complete (dfs : List (List (Nat × Rat)))
    (hs : ∀ s ∈ dfs, (s.map Prod.fst).Sorted (fun a b => a < b)) :
    (∀ s ∈ dfs, s.length ≤ (unionDates (dfs.map (fun s => s.map Prod.fst))).length) ∧
    (∀ s ∈ dfs, ∀ d v,
      (d, v) ∈ alignSeries s (unionDates (dfs.map (fun s => s.map Prod.fst))) →
      ffillAt s d = some v ∧ ∀ p, s.head? = some p → p.1 ≤ d) ∧
    unionDates (([] : List Nat) :: dfs.map (fun s => s.map Prod.fst)) =
      unionDates (dfs.map (fun s => s.map Prod.fst)) := by
  refine ⟨?_, ?_, rfl⟩
  · intro s hsm
    have hnd : (s.map Prod.fst).Nodup :=
      (hs s hsm).imp (fun h => Nat.ne_of_lt h)
    have hsub : (s.map Prod.fst) ⊆ unionDates (dfs.map (fun s => s.map Prod.fst)) := by
      intro d hd
      exact mem_unionDates (List.mem_map_of_mem (fun s => s.map Prod.fst) hsm) hd
    have := (hnd.subperm hsub).length_le
    simpa using this
  · intro s hsm d v hmem
    have hdec := alignSeries_mem_elim s _ hmem
    refine ⟨hdec.2, ?_⟩
    intro p hp
    obtain ⟨q, hq, hqd⟩ := ffillAt_exists_obs s d hdec.2
    cases s with
    | nil => simp at hp
    | cons p0 tl =>
      have hpe : p0 = p := by simpa using hp
      rw [← hpe]
      rcases List.mem_cons.mp hq with rfl | hq'
      · exact hqd
      · have hlt : p0.1 < q.1 := by
          have hsrt := hs (p0 :: tl) hsm
          exact List.rel_of_sorted_cons hsrt q.1 (List.mem_map_of_mem Prod.fst hq')
        exact le_trans (le_of_lt hlt) hqd

/-- Witness for C4 at two concrete series on different calendars: the
two-observation series fits inside the three-date union axis. -/
theorem alignment_union_complete_witness :
    [((1 : Nat), (10 : Rat)), (3, 11)].length ≤
      (unionDates ([[((1 : Nat), (10 : Rat)), (3, 11)], [(2, 5)]].map
        (fun s => s.map Prod.fst))).length :=
  (alignment_union_complete [[(1, 10), (3, 11)], [(2, 5)]] (by decide)).1
    [(1, 10), (3, 11)] (by decide)

/-- Pointwise no-op of the equity per-date update away from its own date. -/
theorem applyEquityRow_ne (hist : List (String × List (Nat × Rat))) (latest : List (String × Rat))
    (sCcy aCcy rep : String) (tq avg : Rat) :
    ∀ c (x : Nat × Rat) d, d ≠ x.1 →
      applyEquityRow hist latest sCcy aCcy rep tq avg c x d = c d := by
  intro c x d h
  simp [applyEquityRow, h]

/-- Claim C1: for every equity symbol group with nonzero total quantity,
the aggregator computes the volume-weighted average cost
`sum(qty*cost)/sum(qty)` and, at each date of the group's aligned series
with close price `close`, adds `close * totalQty * fx` to the date's mtm
and `(close - avgCost) * totalQty * fx` to its pnl, where `fx` is the
product of the trade-to-account and account-to-reporting per-date rates;
the cash_gic component is untouched. -/
theorem equity_group_per_date (accts : List Account) (hist : List (String × List (Nat × Rat)))
    (latest : List (String × Rat)) (rep : String) (axis : List Nat)
    (c : Nat → Entry) (g : SymGroup) (d : Nat) (close : Rat)
    (hq : totalQty g.positions ≠ 0) (hax : axis.Nodup)
    (hmem : (d, close) ∈ alignSeries g.df axis) :
    ∃ c2, addEquitySymbol accts hist latest rep axis c g = some c2 ∧
      c2 d =
        { pnl := (c d).pnl +
            (close - weightedCost g.positions / totalQty g.positions) * totalQty g.positions *
            (fx_on_date hist latest (stockCcy g.positions) (groupAcctCcy accts rep g.positions) d *
              fx_on_date hist latest (groupAcctCcy accts rep g.positions) rep d)
          mtm := (c d).mtm + close * totalQty g.positions *
            (fx_on_date hist latest (stockCcy g.positions) (groupAcctCcy accts rep g.positions) d *
              fx_on_date hist latest (groupAcctCcy accts rep g.positions) rep d)
          cash_gic := (c d).cash_gic } := by
  have havg : symAvgCost g.positions = some (weightedCost g.positions / totalQty g.positions) := by
    simp [symAvgCost, hq]
  refine ⟨(alignSeries g.df axis).foldl
      (applyEquityRow hist latest (stockCcy g.positions) (groupAcctCcy accts rep g.positions)
        rep (totalQty g.positions) (weightedCost g.positions / totalQty g.positions)) c,
    by simp [addEquitySymbol, havg], ?_⟩
  have hnd : ((alignSeries g.df axis).map Prod.fst).Nodup :=
    (alignSeries_fst_sublist g.df axis).nodup hax
  obtain ⟨l₁, l₂, hsplit⟩ := List.append_of_mem hmem
  rw [hsplit] at hnd ⊢
  rw [show ((l₁ ++ (d, close) :: l₂).map Prod.fst) =
      l₁.map Prod.fst ++ d :: l₂.map Prod.fst by simp] at hnd
  obtain ⟨-, hnd2, hdisj⟩ := List.nodup_append.mp hnd
  have h1 : ∀ x ∈ l₁, d ≠ x.1 := by
    intro x hx he
    exact hdisj (he ▸ List.mem_map_of_mem Prod.fst hx) (List.mem_cons_self _ _)
  have h2 : ∀ x ∈ l₂, d ≠ x.1 := by
    intro x hx he
    rcases List.nodup_cons.mp hnd2 with ⟨hdn, -⟩
    exact hdn (he ▸ List.mem_map_of_mem Prod.fst hx)
  have hsplitval := foldl_pointwise_split
    (applyEquityRow hist latest (stockCcy g.positions) (groupAcctCcy accts rep g.positions)
      rep (totalQty g.positions) (weightedCost g.positions / totalQty g.positions))
    Prod.fst
    (applyEquityRow_ne hist latest (stockCcy g.positions) (groupAcctCcy accts rep g.positions)
      rep (totalQty g.positions) (weightedCost g.positions / totalQty g.positions))
    l₁ l₂ (d, close) c h2
  have hbase := foldl_pointwise_ne
    (applyEquityRow hist latest (stockCcy g.positions) (groupAcctCcy accts rep g.positions)
      rep (totalQty g.positions) (weightedCost g.positions / totalQty g.positions))
    Prod.fst
    (applyEquityRow_ne hist latest (stockCcy g.positions) (groupAcctCcy accts rep g.positions)
      rep (totalQty g.positions) (weightedCost g.positions / totalQty g.positions))
    l₁ c d h1
  rw [hsplitval]
  simp [applyEquityRow, hbase]

/-- Witness for C1 at a one-position, one-date group in the reporting
currency. -/
theorem equity_group_per_date_witness :
    ∃ c2, addEquitySymbol [] [] [] "CAD" [1] zeroCombined demoGroupOK = some c2 ∧
      c2 1 =
        { pnl := (zeroCombined 1).pnl +
            ((10 : Rat) - weightedCost demoGroupOK.positions / totalQty demoGroupOK.positions) *
            totalQty demoGroupOK.positions *
            (fx_on_date [] [] (stockCcy demoGroupOK.positions)
              (groupAcctCcy [] "CAD" demoGroupOK.positions) 1 *
              fx_on_date [] [] (groupAcctCcy [] "CAD" demoGroupOK.positions) "CAD" 1)
          mtm := (zeroCombined 1).mtm + (10 : Rat) * totalQty demoGroupOK.positions *
            (fx_on_date [] [] (stockCcy demoGroupOK.positions)
              (groupAcctCcy [] "CAD" demoGroupOK.positions) 1 *
              fx_on_date [] [] (groupAcctCcy [] "CAD" demoGroupOK.positions) "CAD" 1)
          cash_gic := (zeroCombined 1).cash_gic } :=
  equity_group_per_date [] [] [] "CAD" [1] zeroCombined demoGroupOK 1 10
    (by simp [totalQty, demoGroupOK, demoPosQtyOne]) (by decide) (by decide)

/-- Characterization of the Cash/GIC loop at a date of the axis: skipped
before the open date, a single converted contribution otherwise. -/
theorem addNonEquityPos_at (latest : List (String × Rat)) (accts : List Account) (rep : String)
    (axis : List Nat) (c : Nat → Entry) (pos : Position) (d : Nat)
    (hax : axis.Nodup) (hd : d ∈ axis) :
    addNonEquityPos latest accts rep axis c pos d =
      if d < pos.date_added then c d
      else
        { pnl := (c d).pnl + (cashGicValues pos d).2 *
            (lookup_fx latest (asciiUpper pos.currency) (acctCcy accts rep pos) *
              lookup_fx latest (acctCcy accts rep pos) rep)
          mtm := (c d).mtm + (cashGicValues pos d).1 *
            (lookup_fx latest (asciiUpper pos.currency) (acctCcy accts rep pos) *
              lookup_fx latest (acctCcy accts rep pos) rep)
          cash_gic := (c d).cash_gic + (cashGicValues pos d).1 *
            (lookup_fx latest (asciiUpper pos.currency) (acctCcy accts rep pos) *
              lookup_fx latest (acctCcy accts rep pos) rep) } := by
  have hstep : ∀ (cc : Nat → Entry) (dt dd : Nat), dd ≠ dt →
      (fun (cc : Nat → Entry) (dt : Nat) =>
        if dt < pos.date_added then cc
        else
          let mv := cashGicValues pos dt
          let fx := lookup_fx latest (asciiUpper pos.currency) (acctCcy accts rep pos) *
            lookup_fx latest (acctCcy accts rep pos) rep
          fun dd =>
            if dd = dt then
              { pnl := (cc dd).pnl + mv.2 * fx
                mtm := (cc dd).mtm + mv.1 * fx
                cash_gic := (cc dd).cash_gic + mv.1 * fx }
            else cc dd) cc dt dd = cc dd := by
    intro cc dt dd h
    by_cases hlt : dt < pos.date_added
    · simp [hlt]
    · simp [hlt, h]
  obtain ⟨l₁, l₂, hsplit⟩ := List.append_of_mem hd
  rw [hsplit] at hax
  obtain ⟨-, hnd2, hdisj⟩ := List.nodup_append.mp hax
  have h1 : ∀ x ∈ l₁, d ≠ x := by
    intro x hx he
    exact hdisj (he ▸ hx) (List.mem_cons_self _ _)
  have h2 : ∀ x ∈ l₂, d ≠ x := by
    intro x hx he
    rcases List.nodup_cons.mp hnd2 with ⟨hdn, -⟩
    exact hdn (he ▸ hx)
  unfold addNonEquityPos
  rw [hsplit]
  rw [foldl_pointwise_split _ (fun x => x) hstep l₁ l₂ d c h2]
  have hbase := foldl_pointwise_ne _ (fun x => x) hstep l₁ c d h1
  by_cases hlt : d < pos.date_added
  · simp [hlt, hbase]
  · simp [hlt, hbase]

/-- Claim C5: at any date of the aligned axis at or after a position's open
date, a Cash position contributes mtm = qty * costPerUnit and pnl = 0, and
a GIC position contributes from accruedValue = costPerUnit *
(1 + yieldRate * daysSinceOpen / 365) the amounts mtm = accruedValue * qty
and pnl = (accruedValue - costPerUnit) * qty, all converted through the
latest-snapshot two-hop FX chain; dates before the open date contribute
nothing. -/
theorem nonequity_cash_gic_per_date (latest : List (String × Rat)) (accts : List Account)
    (rep : String) (axis : List Nat) (c : Nat → Entry) (pos : Position) (d : Nat)
    (hax : axis.Nodup) (hd : d ∈ axis) :
    (pos.date_added ≤ d →
      addNonEquityPos latest accts rep axis c pos d =
        { pnl := (c d).pnl + (cashGicValues pos d).2 *
            (lookup_fx latest (asciiUpper pos.currency) (acctCcy accts rep pos) *
              lookup_fx latest (acctCcy accts rep pos) rep)
          mtm := (c d).mtm + (cashGicValues pos d).1 *
            (lookup_fx latest (asciiUpper pos.currency) (acctCcy accts rep pos) *
              lookup_fx latest (acctCcy accts rep pos) rep)
          cash_gic := (c d).cash_gic + (cashGicValues pos d).1 *
            (lookup_fx latest (asciiUpper pos.currency) (acctCcy accts rep pos) *
              lookup_fx latest (acctCcy accts rep pos) rep) }) ∧
    (d < pos.date_added → addNonEquityPos latest accts rep axis c pos d = c d) ∧
    (pos.category = Category.Cash →
      cashGicValues pos d = (pos.quantity * pos.cost_per_share, 0)) ∧
    (pos.category ≠ Category.Cash →
      cashGicValues pos d =
        (pos.cost_per_share * (1 + pos.yield_rate.getD 0 * ((d - pos.date_added : Nat) : Rat) / 365) *
          pos.quantity,
         (pos.cost_per_share * (1 + pos.yield_rate.getD 0 * ((d - pos.date_added : Nat) : Rat) / 365) -
          pos.cost_per_share) * pos.quantity)) := by
  refine ⟨?_, ?_, ?_, ?_⟩
  · intro h
    rw [addNonEquityPos_at latest accts rep axis c pos d hax hd, if_neg (not_lt.mpr h)]
  · intro h
    rw [addNonEquityPos_at latest accts rep axis c pos d hax hd, if_pos h]
  · intro h
    simp [cashGicValues, h]
  · intro h
    simp [cashGicValues, h]

/-- Witness for C5: the spec's GIC scenario — cost 100, yield 0.05, exactly
365 days after opening the accrued value is 105 and the accrued PnL is 5
(unit quantity), and the contribution lands on the axis date. -/
theorem nonequity_cash_gic_per_date_witness :
    addNonEquityPos [] [] "CAD" [365] zeroCombined demoGicPos 365 =
      { pnl := (zeroCombined 365).pnl + (cashGicValues demoGicPos 365).2 *
          (lookup_fx [] (asciiUpper demoGicPos.currency) (acctCcy [] "CAD" demoGicPos) *
            lookup_fx [] (acctCcy [] "CAD" demoGicPos) "CAD")
        mtm := (zeroCombined 365).mtm + (cashGicValues demoGicPos 365).1 *
          (lookup_fx [] (asciiUpper demoGicPos.currency) (acctCcy [] "CAD" demoGicPos) *
            lookup_fx [] (acctCcy [] "CAD" demoGicPos) "CAD")
        cash_gic := (zeroCombined 365).cash_gic + (cashGicValues demoGicPos 365).1 *
          (lookup_fx [] (asciiUpper demoGicPos.currency) (acctCcy [] "CAD" demoGicPos) *
            lookup_fx [] (acctCcy [] "CAD" demoGicPos) "CAD") } ∧
    cashGicValues demoGicPos 365 = (105, 5) :=
  ⟨(nonequity_cash_gic_per_date [] [] "CAD" [365] zeroCombined demoGicPos 365
      (by decide) (by decide)).1 (by decide),
    by
      have h : cashGicValues demoGicPos 365 =
          (100 * (1 + (1 / 20 : Rat) * ((365 : Nat) : Rat) / 365) * 1,
           (100 * (1 + (1 / 20 : Rat) * ((365 : Nat) : Rat) / 365) - 100) * 1) := rfl
      rw [h]
      norm_num⟩

/-- Claim C6: enrichment uses the latest market price as spot for Equity
and the cost per unit (hence zero gain/loss) for GIC/Cash/Dividend,
returns both intermediate FX factors explicitly, and computes
mtm_account = spot * qty * fx1, pnl_account = (spot - cost) * qty * fx1,
mtm_reporting = mtm_account * fx2, pnl_reporting = pnl_account * fx2. -/
theorem enrich_two_hop (prices fxm : List (String × Rat)) (rep : String) (acct : Account)
    (p : Position) :
    ((p.category = Category.GIC ∨ p.category = Category.Cash ∨ p.category = Category.Dividend) →
      (enrichOne prices fxm rep acct p).spot_price = p.cost_per_share ∧
      (enrichOne prices fxm rep acct p).pnl_account = 0 ∧
      (enrichOne prices fxm rep acct p).pnl_reporting = 0) ∧
    (p.category = Category.Equity → ∀ pr, findRate prices p.symbol = some pr →
      (enrichOne prices fxm rep acct p).spot_price = pr) ∧
    (enrichOne prices fxm rep acct p).fx_stock_to_account =
      lookup_fx fxm (asciiUpper p.currency) (asciiUpper acct.base_currency) ∧
    (enrichOne prices fxm rep acct p).fx_account_to_reporting =
      lookup_fx fxm (asciiUpper acct.base_currency) (asciiUpper rep) ∧
    (enrichOne prices fxm rep acct p).mtm_account =
      (enrichOne prices fxm rep acct p).spot_price * p.quantity *
        (enrichOne prices fxm rep acct p).fx_stock_to_account ∧
    (enrichOne prices fxm rep acct p).pnl_account =
      ((enrichOne prices fxm rep acct p).spot_price - p.cost_per_share) * p.quantity *
        (enrichOne prices fxm rep acct p).fx_stock_to_account ∧
    (enrichOne prices fxm rep acct p).mtm_reporting =
      (enrichOne prices fxm rep acct p).mtm_account *
        (enrichOne prices fxm rep acct p).fx_account_to_reporting ∧
    (enrichOne prices fxm rep acct p).pnl_reporting =
      (enrichOne prices fxm rep acct p).pnl_account *
        (enrichOne prices fxm rep acct p).fx_account_to_reporting := by
  refine ⟨?_, ?_, rfl, rfl, rfl, rfl, rfl, rfl⟩
  · intro h
    refine ⟨by simp [enrichOne, spotOf, h], ?_, ?_⟩ <;>
      simp [enrichOne, spotOf, h, sub_self]
  · intro h pr hpr
    simp [enrichOne, spotOf, h, hpr]

/-- Witness for C6: the spec's two-hop scenario — reporting currency CAD, a
USD-account Equity position of qty 10 at cost 100, latest price 150 and
USD/CAD = 1.35 give mtm_account 1500, pnl_account 500, mtm_reporting 2025
and pnl_reporting 675. -/
theorem enrich_two_hop_witness :
    (enrichOne demoPrices demoFxUsdCad "CAD" demoAcctUSD demoEquityPos).spot_price = 150 ∧
    (enrichOne demoPrices demoFxUsdCad "CAD" demoAcctUSD demoEquityPos).mtm_account = 1500 ∧
    (enrichOne demoPrices demoFxUsdCad "CAD" demoAcctUSD demoEquityPos).pnl_account = 500 ∧
    (enrichOne demoPrices demoFxUsdCad "CAD" demoAcctUSD demoEquityPos).mtm_reporting = 2025 ∧
    (enrichOne demoPrices demoFxUsdCad "CAD" demoAcctUSD demoEquityPos).pnl_reporting = 675 := by
  have h := enrich_two_hop demoPrices demoFxUsdCad "CAD" demoAcctUSD demoEquityPos
  have hspot : (enrichOne demoPrices demoFxUsdCad "CAD" demoAcctUSD demoEquityPos).spot_price
      = 150 := h.2.1 rfl 150 rfl
  have hfx1 : (enrichOne demoPrices demoFxUsdCad "CAD" demoAcctUSD demoEquityPos).fx_stock_to_account
      = 1 := rfl
  have hfx2 :
      (enrichOne demoPrices demoFxUsdCad "CAD" demoAcctUSD demoEquityPos).fx_account_to_reporting
      = 27 / 20 := rfl
  have hq : demoEquityPos.quantity = 10 := rfl
  have hc : demoEquityPos.cost_per_share = 100 := rfl
  have hma : (enrichOne demoPrices demoFxUsdCad "CAD" demoAcctUSD demoEquityPos).mtm_account
      = 1500 := by
    rw [h.2.2.2.2.1, hspot, hfx1, hq]; norm_num
  have hpa : (enrichOne demoPrices demoFxUsdCad "CAD" demoAcctUSD demoEquityPos).pnl_account
      = 500 := by
    rw [h.2.2.2.2.2.1, hspot, hfx1, hq, hc]; norm_num
  have hmr : (enrichOne demoPrices demoFxUsdCad "CAD" demoAcctUSD demoEquityPos).mtm_reporting
      = 2025 := by
    rw [h.2.2.2.2.2.2.1, hma, hfx2]; norm_num
  have hpr2 : (enrichOne demoPrices demoFxUsdCad "CAD" demoAcctUSD demoEquityPos).pnl_reporting
      = 675 := by
    rw [h.2.2.2.2.2.2.2, hpa, hfx2]; norm_num
  exact ⟨hspot, hma, hpa, hmr, hpr2⟩

/-- A recursive leg of the matrix lookup ending at the anchor equals the
direct-or-inverse resolution. -/
theorem matrixLookup_leg_right (rm : List (String × Rat)) (via a : String) :
    matrixLookup rm via a via = lookupDI rm a via := by
  by_cases he : a = via
  · simp [matrixLookup, lookupDI, he]
  · cases h1 : posRate (findRate rm (pairStr a via)) with
    | some r => simp [matrixLookup, lookupDI, he, h1]
    | none =>
      cases h2 : posRate (findRate rm (pairStr via a)) with
      | some r => simp [matrixLookup, lookupDI, he, h1, h2]
      | none => simp [matrixLookup, lookupDI, he, h1, h2]

/-- A recursive leg of the matrix lookup starting at the anchor equals the
direct-or-inverse resolution. -/
theorem matrixLookup_leg_left (rm : List (String × Rat)) (via b : String) :
    matrixLookup rm via via b = lookupDI rm via b := by
  by_cases he : via = b
  · simp [matrixLookup, lookupDI, he]
  · cases h1 : posRate (findRate rm (pairStr via b)) with
    | some r => simp [matrixLookup, lookupDI, he, h1]
    | none =>
      cases h2 : posRate (findRate rm (pairStr b via)) with
      | some r => simp [matrixLookup, lookupDI, he, h1, h2]
      | none => simp [matrixLookup, lookupDI, he, h1, h2]

/-- Counterexample to C2 as stated: with a directly recorded EUR/CAD rate
of 7 while EUR/USD = 2 and USD/CAD = 3 (anchor USD), both legs resolve,
yet the lookup returns the direct rate 7, not the product 6 — the direct
pair takes precedence over triangulation for every rate map. -/
theorem fx_matrix_direct_overrides_triangulation :
    matrixLookup cexRateMap "USD" "EUR" "CAD" = some 7 ∧
    matrixLookup cexRateMap "USD" "EUR" "USD" = some 2 ∧
    matrixLookup cexRateMap "USD" "USD" "CAD" = some 3 ∧
    (7 : Rat) ≠ 2 * 3 :=
  ⟨by decide, by decide, by decide, by norm_num⟩

/-- Claim C2 as amended: for two currencies distinct from each other and
from the anchor, when neither the direct pair nor its inverse is present
with a positive rate, the lookup triangulates: if both legs through the
anchor resolve it returns exactly their product, and if either leg is
unresolved the whole lookup is unresolved (null, not a crash). -/
theorem fx_matrix_triangulation (rm : List (String × Rat)) (via a b : String)
    (hab : a ≠ b) (ha : a ≠ via) (hb : b ≠ via)
    (hd : posRate (findRate rm (pairStr a b)) = none)
    (hi : posRate (findRate rm (pairStr b a)) = none) :
    (∀ x y, matrixLookup rm via a via = some x → matrixLookup rm via via b = some y →
      matrixLookup rm via a b = some (x * y)) ∧
    ((matrixLookup rm via a via = none ∨ matrixLookup rm via via b = none) →
      matrixLookup rm via a b = none) := by
  have hmain : matrixLookup rm via a b =
      match lookupDI rm a via, lookupDI rm via b with
      | some x, some y => some (x * y)
      | _, _ => none := by
    simp [matrixLookup, hab, hd, hi, ha, hb]
  constructor
  · intro x y hx hy
    rw [matrixLookup_leg_right rm via a] at hx
    rw [matrixLookup_leg_left rm via b] at hy
    rw [hmain, hx, hy]
  · intro h
    rcases h with h | h
    · rw [matrixLookup_leg_right rm via a] at h
      rw [hmain, h]
    · rw [matrixLookup_leg_left rm via b] at h
      rw [hmain, h]
      cases lookupDI rm a via <;> rfl

/-- Witness for the amended C2: with no direct EUR/CAD pair, EUR/USD = 2
and USD/CAD = 3 triangulate through the anchor USD to exactly 2 * 3. -/
theorem fx_matrix_triangulation_witness :
    matrixLookup triRateMap "USD" "EUR" "CAD" = some (2 * 3) :=
  (fx_matrix_triangulation triRateMap "USD" "EUR" "CAD" (by decide) (by decide) (by decide)
      (by decide) (by decide)).1 2 3 (by decide) (by decide)

/-- After an upsert of row r, the store holds exactly one row with r's key
and date: r itself. -/
theorem rowsFor_upsert_self (st : List CacheRow) (r : CacheRow) :
    rowsFor (upsertRow st r) r.cache_key r.trade_date = [r] := by
  unfold rowsFor upsertRow
  rw [List.filter_append, List.filter_filter]
  have h1 : List.filter (fun q =>
      (q.cache_key == r.cache_key && q.trade_date == r.trade_date) &&
      !(q.cache_key == r.cache_key && q.trade_date == r.trade_date)) st = [] := by
    apply List.filter_eq_nil_iff.mpr
    intro a ha
    simp
  rw [h1]
  simp

/-- Upsert preserves the unique-(key, date) invariant. -/
theorem upsertRow_distinct (st : List CacheRow) (r : CacheRow)
    (h : pairwiseDistinctKeys st) : pairwiseDistinctKeys (upsertRow st r) := by
  unfold pairwiseDistinctKeys upsertRow
  rw [List.pairwise_append]
  refine ⟨List.Pairwise.sublist (List.filter_sublist st) h, by simp, ?_⟩
  intro a ha b hb
  obtain rfl : b = r := by simpa using hb
  have hm := (List.mem_filter.mp ha).2
  intro hcon
  rw [hcon.1, hcon.2] at hm
  simp at hm

/-- The whole write loop preserves the unique-(key, date) invariant. -/
theorem writeCacheRows_distinct (st : List CacheRow) (key : String) (df : List (Nat × Rat))
    (h : pairwiseDistinctKeys st) : pairwiseDistinctKeys (writeCacheRows st key df) := by
  induction df generalizing st with
  | nil => exact h
  | cons p l ih =>
    unfold writeCacheRows
    rw [List.foldl_cons]
    exact ih (upsertRow st ⟨key, p.1, p.2⟩) (upsertRow_distinct st ⟨key, p.1, p.2⟩ h)

/-- Claim C7: writing the same (key, date, price) twice leaves exactly one
stored row for that (key, date); after two writes with different prices
for the same (key, date) the stored row — and anything a read returns for
that date — carries the later price; and re-populating never violates the
unique-(key, date) constraint, so no duplicates ever arise. -/
theorem cache_upsert_last_writer_wins (st : List CacheRow) (k : String) (d : Nat)
    (p p1 p2 : Rat) :
    rowsFor (writeCacheRows (writeCacheRows st k [(d, p)]) k [(d, p)]) k d = [⟨k, d, p⟩] ∧
    rowsFor (writeCacheRows (writeCacheRows st k [(d, p1)]) k [(d, p2)]) k d = [⟨k, d, p2⟩] ∧
    (d, p2) ∈ readCacheRows (writeCacheRows (writeCacheRows st k [(d, p1)]) k [(d, p2)]) k d ∧
    (∀ q ∈ readCacheRows (writeCacheRows (writeCacheRows st k [(d, p1)]) k [(d, p2)]) k d,
      q.1 = d → q.2 = p2) ∧
    (∀ df, pairwiseDistinctKeys st → pairwiseDistinctKeys (writeCacheRows st k df)) := by
  have hwrite : ∀ (s : List CacheRow) (v : Rat),
      writeCacheRows s k [(d, v)] = upsertRow s ⟨k, d, v⟩ := fun s v => rfl
  have hrows2 : rowsFor (writeCacheRows (writeCacheRows st k [(d, p1)]) k [(d, p2)]) k d =
      [⟨k, d, p2⟩] := by
    rw [hwrite, hwrite]
    exact rowsFor_upsert_self (upsertRow st ⟨k, d, p1⟩) ⟨k, d, p2⟩
  refine ⟨?_, hrows2, ?_, ?_, ?_⟩
  · rw [hwrite, hwrite]
    exact rowsFor_upsert_self (upsertRow st ⟨k, d, p⟩) ⟨k, d, p⟩
  · unfold readCacheRows
    rw [(List.perm_insertionSort _ _).mem_iff]
    refine List.mem_map.mpr ⟨⟨k, d, p2⟩, ?_, rfl⟩
    refine List.mem_filter.mpr ⟨?_, by simp⟩
    rw [hwrite, hwrite]
    unfold upsertRow
    exact List.mem_append_right _ (List.mem_singleton.mpr rfl)
  · intro q hq hq1
    unfold readCacheRows at hq
    rw [(List.perm_insertionSort _ _).mem_iff] at hq
    obtain ⟨r, hrf, hrq⟩ := List.mem_map.mp hq
    obtain ⟨hrs, hrp⟩ := List.mem_filter.mp hrf
    have hpq : r.cache_key = k ∧ d ≤ r.trade_date := by simpa using hrp
    have hrk : r.cache_key = k := hpq.1
    have hrd : r.trade_date = d := by
      rw [← hrq] at hq1
      exact hq1
    have hrmem : r ∈ rowsFor (writeCacheRows (writeCacheRows st k [(d, p1)]) k [(d, p2)]) k d :=
      List.mem_filter.mpr ⟨hrs, by simp [hrk, hrd]⟩
    rw [hrows2] at hrmem
    obtain rfl : r = (⟨k, d, p2⟩ : CacheRow) := by simpa using hrmem
    rw [← hrq]
  · intro df h
    exact writeCacheRows_distinct st k df h

/-- Witness for C7 on an initially empty store. -/
theorem cache_upsert_last_writer_wins_witness :
    rowsFor (writeCacheRows (writeCacheRows [] "MSFT" [(3, 7)]) "MSFT" [(3, 8)]) "MSFT" 3 =
      [⟨"MSFT", 3, 8⟩] ∧
    pairwiseDistinctKeys (writeCacheRows [] "MSFT" [(3, 7), (4, 9)]) :=
  ⟨(cache_upsert_last_writer_wins [] "MSFT" 3 7 7 8).2.1,
   (cache_upsert_last_writer_wins [] "MSFT" 3 7 7 8).2.2.2.2 [(3, 7), (4, 9)] (by simp [pairwiseDistinctKeys])⟩

/-- Claim C8: with useCache = true the fetch-or-cache operation never calls
the external source, leaves the cache untouched, and returns the cache-only
read, which degrades to an empty series on a read failure or on a miss;
with useCache = false it returns the freshly fetched series regardless of
whether the cache write succeeds — no cache failure propagates. -/
theorem fetch_or_cache_containment (fetch : String → Nat → List (Nat × Rat)) (env : CacheEnv)
    (k : String) (start : Nat) :
    (fetch_or_cache fetch env k start true).called_source = false ∧
    (fetch_or_cache fetch env k start true).series = read_cache env k start ∧
    (fetch_or_cache fetch env k start true).env = env ∧
    (env.readOk = false → read_cache env k start = []) ∧
    ((∀ r ∈ env.store, ¬(r.cache_key = k ∧ start ≤ r.trade_date)) →
      read_cache env k start = []) ∧
    (fetch_or_cache fetch env k start false).series = fetch k start := by
  refine ⟨rfl, rfl, rfl, ?_, ?_, rfl⟩
  · intro h
    simp [read_cache, h]
  · intro h
    unfold read_cache
    cases hr : env.readOk
    · rfl
    · unfold readCacheRows
      have hf : env.store.filter (fun r => r.cache_key == k && start ≤ r.trade_date) = [] := by
        apply List.filter_eq_nil_iff.mpr
        intro a ha
        have := h a ha
        simp only [Bool.and_eq_true, beq_iff_eq, decide_eq_true_eq, not_and]
        intro h1 h2
        exact this ⟨h1, h2⟩
      rw [hf]
      rfl

/-- Witness for C8: a live fetch returns the fresh series even with a
failing cache write; a cached fetch does not call the source; a broken or
cold cache reads back as an empty series. -/
theorem fetch_or_cache_containment_witness :
    (fetch_or_cache (fun _ _ => [(1, 2)]) ⟨[], true, false⟩ "MSFT" 0 false).series = [(1, 2)] ∧
    (fetch_or_cache (fun _ _ => [(1, 2)]) ⟨[], true, true⟩ "MSFT" 0 true).called_source = false ∧
    read_cache ⟨[], false, true⟩ "MSFT" 0 = [] ∧
    read_cache ⟨[], true, true⟩ "MSFT" 0 = [] :=
  ⟨(fetch_or_cache_containment (fun _ _ => [(1, 2)]) ⟨[], true, false⟩ "MSFT" 0).2.2.2.2.2,
   (fetch_or_cache_containment (fun _ _ => [(1, 2)]) ⟨[], true, true⟩ "MSFT" 0).1,
   (fetch_or_cache_containment (fun _ _ => [(1, 2)]) ⟨[], false, true⟩ "MSFT" 0).2.2.2.1 rfl,
   (fetch_or_cache_containment (fun _ _ => [(1, 2)]) ⟨[], true, true⟩ "MSFT" 0).2.2.2.2.1
     (by simp)⟩

/-- Claim C9 as amended: the proportion pass divides each position's
reporting-currency MTM by the portfolio total and scales by 100, but a
zero total is first replaced by the sentinel 1.0 (Python `or 1.0`), so no
division by zero occurs and with a zero total each position receives
mtm_reporting * 100 — which is 0 only for positions whose own MTM is 0. -/
theorem proportion_second_pass (l : List EnrichedPosition) :
    summaryTotalMtm l ≠ 0 ∧
    (totalMtmRaw l ≠ 0 →
      propsOf l = l.map (fun e => e.mtm_reporting / totalMtmRaw l * 100)) ∧
    (totalMtmRaw l = 0 → propsOf l = l.map (fun e => e.mtm_reporting * 100)) := by
  have htot : summaryTotalMtm l ≠ 0 := by
    unfold summaryTotalMtm
    by_cases h : totalMtmRaw l = 0 <;> simp [h]
  refine ⟨htot, ?_, ?_⟩
  · intro h
    have hs : summaryTotalMtm l = totalMtmRaw l := if_neg h
    simp only [propsOf, assignProportions, List.map_map]
    simp [Function.comp, hs]
    exact fun a _ h0 => absurd h0 h
  · intro h
    have hs : summaryTotalMtm l = 1 := if_pos h
    simp only [propsOf, assignProportions, List.map_map]
    simp [Function.comp, hs]

/-- Witness for C9 (amended): on a nonzero-total two-position portfolio the
proportions are the MTM shares of the total. -/
theorem proportion_second_pass_witness :
    propsOf [cexMtmPlus] = [cexMtmPlus].map
      (fun e => e.mtm_reporting / totalMtmRaw [cexMtmPlus] * 100) :=
  (proportion_second_pass [cexMtmPlus]).2.1
    (by norm_num [totalMtmRaw, cexMtmPlus])

/-- Counterexample to C9 as stated: two positions with reporting MTM +100
and -100 sum to a zero portfolio total, yet the assigned proportions are
+10000 percent and -10000 percent, not 0 percent — the `or 1.0` sentinel
replaces the zero total instead of zeroing the proportions. -/
theorem proportion_zero_total_cex :
    totalMtmRaw [cexMtmPlus, cexMtmMinus] = 0 ∧
    propsOf [cexMtmPlus, cexMtmMinus] = [10000, -10000] ∧
    propsOf [cexMtmPlus, cexMtmMinus] ≠ [0, 0] := by
  have h0 : totalMtmRaw [cexMtmPlus, cexMtmMinus] = 0 := by
    norm_num [totalMtmRaw, cexMtmPlus, cexMtmMinus]
  have hst : summaryTotalMtm [cexMtmPlus, cexMtmMinus] = 1 := by
    unfold summaryTotalMtm
    rw [if_pos h0]
  have hp : propsOf [cexMtmPlus, cexMtmMinus] = [10000, -10000] := by
    unfold propsOf assignProportions
    simp only [hst]
    norm_num [cexMtmPlus, cexMtmMinus]
  refine ⟨h0, hp, ?_⟩
  rw [hp]
  norm_num

/-- If some group with a nonempty frame has zero total quantity, the
monadic fold over the groups errors out. -/
theorem foldlM_addEquity_none (accts : List Account) (hist : List (String × List (Nat × Rat)))
    (latest : List (String × Rat)) (rep : String) (axis : List Nat)
    (gs : List SymGroup) (g : SymGroup) (hg : g ∈ gs)
    (hzero : totalQty g.positions = 0) :
    ∀ c, gs.foldlM (fun c g => addEquitySymbol accts hist latest rep axis c g) c = none := by
  induction gs with
  | nil => cases hg
  | cons a l ih =>
    intro c
    rw [List.foldlM_cons]
    by_cases hag : g = a
    · subst hag
      have hnone : addEquitySymbol accts hist latest rep axis c g = none := by
        simp [addEquitySymbol, symAvgCost, hzero]
      rw [hnone]
      rfl
    · have hmem : g ∈ l := by
        rcases List.mem_cons.mp hg with h1 | h1
        · exact absurd h1 hag
        · exact h1
      cases h : addEquitySymbol accts hist latest rep axis c a with
      | none => rfl
      | some c2 => exact ih hmem c2

/-- Claim C10: the volume-weighted average-cost division of the equity
aggregator and of the single-symbol history endpoint is unguarded — it is
total exactly when the group's summed quantity is nonzero, and a symbol
whose quantities sum to zero makes the whole public aggregate computation
raise (modelled as none). -/
theorem avg_cost_requires_nonzero_qty :
    (∀ ps : List Position, totalQty ps ≠ 0 →
      symAvgCost ps = some (weightedCost ps / totalQty ps)) ∧
    (∀ ps : List Position, totalQty ps = 0 → symAvgCost ps = none) ∧
    (∀ (accts : List Account) (hist : List (String × List (Nat × Rat)))
        (latest : List (String × Rat)) (rep : String) (groups : List SymGroup) (g : SymGroup),
      g ∈ groups → g.df ≠ [] → totalQty g.positions = 0 →
      computeEquityAggregate accts hist latest rep groups = none) := by
  refine ⟨?_, ?_, ?_⟩
  · intro ps h
    simp [symAvgCost, h]
  · intro ps h
    simp [symAvgCost, h]
  · intro accts hist latest rep groups g hg hdf hz
    have hgs : g ∈ groups.filter (fun g => !g.df.isEmpty) := by
      rw [List.mem_filter]
      exact ⟨hg, by simp [hdf]⟩
    have hne : (groups.filter (fun g => !g.df.isEmpty)).isEmpty = false := by
      cases hfe : (groups.filter fun g => !g.df.isEmpty) with
      | nil => rw [hfe] at hgs; cases hgs
      | cons x xs => rfl
    unfold computeEquityAggregate
    simp only [hne, Bool.false_eq_true, if_false]
    rw [foldlM_addEquity_none accts hist latest rep _ _ g hgs hz]
    rfl

/-- Witness for C10: a symbol with two positions of quantities +1 and -1
(summing to zero) and a nonempty price frame makes the aggregate
computation error out. -/
theorem avg_cost_requires_nonzero_qty_witness :
    computeEquityAggregate [] [] [] "CAD" [demoGroupZeroQty] = none :=
  avg_cost_requires_nonzero_qty.2.2 [] [] [] "CAD" [demoGroupZeroQty] demoGroupZeroQty
    (by decide) (by decide)
    (by norm_num [totalQty, demoGroupZeroQty, demoPosQtyOne, demoPosQtyNegOne])

end DirectInvestTracker
